import Mathlib

/-!
Verification of the viking-fitatu meal synchronisation program
(`viking_fitatu_integration.py`) against its natural-language specification.

The Python functions are shallowly embedded as Lean definitions.  JSON /
Python values that can flow through the nutrition fields are modelled by
`PyVal`; Python floats are idealised as rationals; the remote HTTP services
are modelled by passing their responses (or `none` for a failed call) as
explicit arguments, and by returning the write operations the code would
issue (delete calls, create calls, the posted diet plan) as data.
-/

set_option maxHeartbeats 1000000

/-- A Python value that can appear in a nutrition / weight field:
a number (`int` or `float`, idealised as `ℚ`), a string holding an integer
literal, a string holding a fractional numeric literal, the `"N/A"` sentinel
string, or `None`. -/
inductive PyVal where
  | num (q : ℚ)
  | intStr (n : ℤ)
  | floatStr (q : ℚ)
  | na
  | null
deriving DecidableEq, Repr

/-- Python `float(x)`: numbers and numeric strings convert, `"N/A"` and
`None` raise (`ValueError` / `TypeError`), modelled as `none`. -/
def pyFloat : PyVal → Option ℚ
  | .num q => some q
  | .intStr n => some n
  | .floatStr q => some q
  | .na => none
  | .null => none

/-- Truncation toward zero, the behaviour of Python `int()` on a float. -/
def truncQ (q : ℚ) : ℤ := q.num.tdiv (q.den : ℤ)

/-- Python `int(x)`: numbers are truncated toward zero, integer-literal
strings parse; fractional strings, `"N/A"` and `None` raise, modelled as
`none`. -/
def pyInt : PyVal → Option ℤ
  | .num q => some (truncQ q)
  | .intStr n => some n
  | .floatStr _ => none
  | .na => none
  | .null => none

/-- The helper `values_match` from `create_or_find_product`: the `"N/A"` new value and
`None` existing value short-circuit to `True`; otherwise both values are
converted with `float` (a failed conversion also yields `True`) and compared
with a relative tolerance of 0.1% of the larger magnitude. -/
def values_match (existing_val new_val : PyVal) : Bool :=
  if new_val = PyVal.na then true
  else if existing_val = PyVal.null then true
  else
    match pyFloat existing_val, pyFloat new_val with
    | some e, some n => decide (|e - n| ≤ (1/1000 : ℚ) * max |e| |n|)
    | _, _ => true

/-- Python `d.get(k, dflt)` on a dict, modelled as an association list whose
keys are unique. -/
def lookupD {α : Type} (d : List (String × α)) (k : String) (dflt : α) : α :=
  match d.find? (fun p => p.1 == k) with
  | some p => p.2
  | none => dflt

/-- The fixed brand tag stamped on all products owned by this program. -/
def BRAND : String := "Viking"

/-- A product as returned by the tracker's search endpoint; only the fields
the program reads are modelled. -/
structure Product where
  foodId : String
  name : String
  brand : String
  energy : PyVal
deriving DecidableEq, Repr

/-- The function `search_all_products`: the raw search response is passed in (`none` for a
transport error or non-200 response, in which case `FitatuClient.get` returns
`None`); a truthy response is filtered to exact name and brand matches. -/
def search_all_products (response : Option (List Product)) (name : String) : List Product :=
  match response with
  | some products =>
    if !products.isEmpty then products.filter (fun p => p.name == name && p.brand == BRAND)
    else []
  | none => []

/-- One entry of the `measures` list of a created product. -/
structure ProductMeasure where
  measureKey : String
  measureUnit : String
  weight : PyVal
deriving DecidableEq, Repr

/-- The payload `create_or_find_product` posts to the create-product
endpoint. -/
structure ProductData where
  name : String
  brand : String
  energy : PyVal
  carbohydrate : PyVal
  sugars : PyVal
  fat : PyVal
  protein : PyVal
  saturatedFat : PyVal
  fiber : PyVal
  measures : List ProductMeasure
  salt : PyVal
deriving DecidableEq, Repr

/-- The `product_data` dict built in `create_or_find_product`. -/
def mkProductData (menu_meal_name : String) (nutrition : List (String × PyVal))
    (weight : PyVal) : ProductData :=
  { name := menu_meal_name
    brand := BRAND
    energy := lookupD nutrition "calories" PyVal.na
    carbohydrate := lookupD nutrition "carbohydrate" PyVal.na
    sugars := lookupD nutrition "sugar" PyVal.na
    fat := lookupD nutrition "fat" PyVal.na
    protein := lookupD nutrition "protein" PyVal.na
    saturatedFat := lookupD nutrition "saturatedFattyAcids" PyVal.na
    fiber := lookupD nutrition "dietaryFiber" PyVal.na
    measures := [{ measureKey := "PACKAGE", measureUnit := "g", weight := weight }]
    salt := lookupD nutrition "salt" PyVal.na }

/-- Outcome of `create_or_find_product`: the returned product id, the list of
product ids for which a delete call is issued (in iteration order), and the
payload of the create call when one is issued. -/
structure ReconcileResult where
  result : Option String
  deletes : List String
  created : Option ProductData
deriving DecidableEq, Repr

/-- The reconciler `create_or_find_product`, given the (already name/brand-filtered) search
candidates and the id the create endpoint would return (`none` for a failed
creation).  The first candidate whose `energy` matches the meal's calories
under `values_match` is used; every other candidate (by `foodId`) is deleted.
With no match, a new product is created from the full nutrition profile. -/
def create_or_find_product (menu_meal_name : String) (nutrition : List (String × PyVal))
    (weight : PyVal) (existing_products : List Product)
    (create_result : Option String) : ReconcileResult :=
  match existing_products.find?
      (fun p => values_match p.energy (lookupD nutrition "calories" PyVal.na)) with
  | some matched =>
    { result := some matched.foodId
      deletes := (existing_products.filter (fun p => p.foodId != matched.foodId)).map
        (fun p => p.foodId)
      created := none }
  | none =>
    { result := create_result
      deletes := []
      created := some (mkProductData menu_meal_name nutrition weight) }

/-- Concrete candidate products used by the witnesses. -/
def pA : Product := { foodId := "A", name := "Meal", brand := "Viking", energy := PyVal.num 100 }

def pB : Product := { foodId := "B", name := "Meal", brand := "Viking", energy := PyVal.num 200 }

def pC : Product := { foodId := "C", name := "Meal", brand := "Viking", energy := PyVal.num 300 }

/-- One entry of the `deliveryMenuMeal` list returned by the vendor's
delivery-detail endpoint.  `mealName` folds in the `get("mealName", "")`
default; `menuMealName` is `none` when absent or `null`; `deliveryMealId`
is `none` when absent or `null` (the code only tests it with `is None`). -/
structure VikingMeal where
  mealName : String
  menuMealName : Option String
  deliveryMealId : Option String
  nutrition : List (String × PyVal)
deriving DecidableEq, Repr

/-- Python dict assignment `d[k] = v`: updates the value in place when the
key exists, otherwise appends the binding at the end. -/
def dictInsert {α : Type} (d : List (String × α)) (k : String) (v : α) :
    List (String × α) :=
  if d.any (fun p => p.1 == k) then d.map (fun p => if p.1 == k then (k, v) else p)
  else d ++ [(k, v)]

/-- The meal loop of `process_meal`.  `reconcile` stands for
`create_or_find_product` applied at the fixed target date, returning the
resolved product id (or `None`).  Meals with a `null` delivery id, a falsy
`menuMealName`, or a falsy resolved product id are skipped. -/
def process_meal_loop
    (reconcile : String → List (String × PyVal) → PyVal → Option String) :
    List VikingMeal → List (String × String) → List (String × PyVal) →
    List (String × String) × List (String × PyVal)
  | [], meal_ids, meal_weights => (meal_ids, meal_weights)
  | meal :: rest, meal_ids, meal_weights =>
    if meal.deliveryMealId.isNone then process_meal_loop reconcile rest meal_ids meal_weights
    else
      match meal.menuMealName with
      | some menu_meal_name =>
        if menu_meal_name ≠ "" then
          match reconcile menu_meal_name meal.nutrition
              (lookupD meal.nutrition "weight" PyVal.na) with
          | some product_id =>
            if product_id ≠ "" then
              process_meal_loop reconcile rest
                (dictInsert meal_ids meal.mealName product_id)
                (dictInsert meal_weights meal.mealName
                  (lookupD meal.nutrition "weight" PyVal.na))
            else process_meal_loop reconcile rest meal_ids meal_weights
          | none => process_meal_loop reconcile rest meal_ids meal_weights
        else process_meal_loop reconcile rest meal_ids meal_weights
      | none => process_meal_loop reconcile rest meal_ids meal_weights

/-- The function `process_meal`: a falsy delivery-detail response (`details = none`)
yields `(None, None)`, modelled as `none`; otherwise the meal loop runs
over the `deliveryMenuMeal` list with empty accumulators. -/
def process_meal (details : Option (List VikingMeal))
    (reconcile : String → List (String × PyVal) → PyVal → Option String) :
    Option (List (String × String) × List (String × PyVal)) :=
  match details with
  | none => none
  | some meals => some (process_meal_loop reconcile meals [] [])

/-- A meal line qualifies for the returned maps: non-null delivery id,
truthy menu-meal name, and a truthy reconciled product id. -/
def QualMeal (reconcile : String → List (String × PyVal) → PyVal → Option String)
    (meal : VikingMeal) : Prop :=
  meal.deliveryMealId.isSome ∧ ∃ mm, meal.menuMealName = some mm ∧ mm ≠ "" ∧
    (reconcile mm meal.nutrition (lookupD meal.nutrition "weight" PyVal.na)).isSome

/-- Vendor meal with no delivery (`deliveryMealId = null`), for witnesses. -/
def mealNull : VikingMeal :=
  { mealName := "Kolacja", menuMealName := some "Zupa", deliveryMealId := none,
    nutrition := [] }

/-- Delivered vendor meal, for witnesses. -/
def mealOk : VikingMeal :=
  { mealName := "Obiad", menuMealName := some "Kurczak", deliveryMealId := some "d1",
    nutrition := [("calories", PyVal.num 500), ("weight", PyVal.num 250)] }

/-- Reconciliation oracle used by witnesses: always resolves to `"P1"`. -/
def reconDemo : String → List (String × PyVal) → PyVal → Option String :=
  fun _ _ _ => some "P1"

/-- One line item of a day's diet plan.  `brand` is carried by items fetched
from the tracker (used by the brand filter); the items this program appends
carry no brand field (`none`). -/
structure DietPlanItem where
  planDayDietItemId : String
  foodType : String
  measureId : ℕ
  measureQuantity : ℤ
  productId : String
  source : String
  updatedAt : String
  deletedAt : Option String
  brand : Option String
deriving DecidableEq, Repr

/-- A per-date diet plan: ordered mapping from slot key to its items. -/
abbrev DietPlan := List (String × List DietPlanItem)

/-- The function `get_existing_diet_plan`: a falsy response yields the empty plan;
otherwise every slot's items are filtered to the fixed brand. -/
def get_existing_diet_plan (response : Option DietPlan) : DietPlan :=
  match response with
  | some dp => dp.map (fun p => (p.1, p.2.filter (fun it => it.brand == some BRAND)))
  | none => []

/-- The default `MEAL_MAPPING` configuration: vendor meal-slot names to the
tracker's canonical slot keys. -/
def MEAL_MAPPING (name : String) : Option String :=
  if name = "Śniadanie" then some "breakfast"
  else if name = "II śniadanie" then some "second_breakfast"
  else if name = "Obiad" then some "dinner"
  else if name = "Podwieczorek" then some "snack"
  else if name = "Kolacja" then some "supper"
  else none

/-- Inverse of the (injective) default meal mapping; proof device only. -/
def MEAL_MAPPING_inv (slot : String) : Option String :=
  if slot = "breakfast" then some "Śniadanie"
  else if slot = "second_breakfast" then some "II śniadanie"
  else if slot = "dinner" then some "Obiad"
  else if slot = "snack" then some "Podwieczorek"
  else if slot = "supper" then some "Kolacja"
  else none

/-- Dict lookup `plan[key]` (with `key in plan` returning `none` when
absent). -/
def planLookup (plan : DietPlan) (key : String) : Option (List DietPlanItem) :=
  (plan.find? (fun p => p.1 == key)).map (fun p => p.2)

/-- The duplicate check of `add_meal_to_diet_plan`:
`mapped_key in existing_plan and any(item.get("productId") == meal_id ...)`.
Note it inspects only `productId`, never `deletedAt`. -/
def slotHasProduct (plan : DietPlan) (key : String) (pid : String) : Bool :=
  match planLookup plan key with
  | some items => items.any (fun it => it.productId == pid)
  | none => false

/-- Embeds the `setdefault(...)["items"].append(item)` call:
append to the slot's item list, creating the slot at the end of the dict
when absent. -/
def appendToSlot : DietPlan → String → DietPlanItem → DietPlan
  | [], key, it => [(key, [it])]
  | (k, its) :: rest, key, it =>
    if k = key then (k, its ++ [it]) :: rest
    else (k, its) :: appendToSlot rest key it

/-- The dict literal appended by `add_meal_to_diet_plan`: fresh uuid,
`foodType="PRODUCT"`, `measureId=1`, `int(meal_weight)` grams, the resolved
product id, `source="API"` and the current timestamp. -/
def mkDietPlanItem (freshId : String) (w : ℤ) (pid : String) (now : String) : DietPlanItem :=
  { planDayDietItemId := freshId
    foodType := "PRODUCT"
    measureId := 1
    measureQuantity := w
    productId := pid
    source := "API"
    updatedAt := now
    deletedAt := none
    brand := none }

/-- The function `add_meal_to_diet_plan`.  `gen k` models the `uuid.uuid1()` call, `now`
the current timestamp.  Returns the updated plan together with the appended
`(slot, item)` pair when one is appended; `int(meal_weight)` raising
(`"N/A"` or fractional-string weight) is an uncaught error. -/
def add_meal_to_diet_plan (gen : ℕ → String) (now : String) (k : ℕ)
    (diet_plan : DietPlan) (meal_name meal_id : String) (meal_weight : PyVal)
    (existing_plan : DietPlan) :
    Except Unit (DietPlan × Option (String × DietPlanItem)) :=
  match MEAL_MAPPING meal_name with
  | none => .ok (diet_plan, none)
  | some mapped_key =>
    if meal_id ≠ "" ∧ slotHasProduct existing_plan mapped_key meal_id = true then
      .ok (diet_plan, none)
    else
      match pyInt meal_weight with
      | none => .error ()
      | some w =>
        .ok (appendToSlot diet_plan mapped_key (mkDietPlanItem (gen k) w meal_id now),
          some (mapped_key, mkDietPlanItem (gen k) w meal_id now))

/-- The stale-marking loop of `publish_diet_plan`: items whose `productId`
is not among the resolved ids get `deletedAt` stamped with the current
timestamp; all items are kept. -/
def stampItems (now : String) (vals : List String) (items : List DietPlanItem) :
    List DietPlanItem :=
  items.map (fun it =>
    if vals.contains it.productId then it else { it with deletedAt := some now })

/-- The `for meal_name, meal_id in meal_ids.items()` loop of
`publish_diet_plan`: threads the plan being built, the uuid counter (bumped
only when an item is actually appended) and the list of appended
`(slot, item)` pairs. -/
def publishLoop (gen : ℕ → String) (now : String) (existing_plan : DietPlan)
    (meal_weights : List (String × PyVal)) :
    List (String × String) → DietPlan → ℕ → List (String × DietPlanItem) →
    Except Unit (DietPlan × List (String × DietPlanItem))
  | [], dp, _, app => .ok (dp, app)
  | (meal_name, meal_id) :: rest, dp, k, app =>
    match add_meal_to_diet_plan gen now k dp meal_name meal_id
        (lookupD meal_weights meal_name (PyVal.num 100)) existing_plan with
    | .error e => .error e
    | .ok (dp', none) => publishLoop gen now existing_plan meal_weights rest dp' k app
    | .ok (dp', some si) =>
      publishLoop gen now existing_plan meal_weights rest dp' (k + 1) (app ++ [si])

/-- Outcome of `publish_diet_plan`: the per-slot plan posted to the tracker
(under the date key) and the newly appended `(slot, item)` pairs. -/
structure PublishOutcome where
  posted : DietPlan
  appended : List (String × DietPlanItem)
deriving DecidableEq, Repr

/-- The publisher `publish_diet_plan`, given the brand-filtered existing plan for the
date.  Stale items are stamped, slots that end up non-empty are carried
over, then every resolved meal is merged through
`add_meal_to_diet_plan`. -/
def publish_diet_plan (gen : ℕ → String) (now : String)
    (meal_ids : List (String × String)) (meal_weights : List (String × PyVal))
    (existing_plan0 : DietPlan) : Except Unit PublishOutcome :=
  match publishLoop gen now
      (existing_plan0.map (fun p => (p.1, stampItems now (meal_ids.map Prod.snd) p.2)))
      meal_weights meal_ids
      ((existing_plan0.map
          (fun p => (p.1, stampItems now (meal_ids.map Prod.snd) p.2))).filter
        (fun p => !p.2.isEmpty))
      0 [] with
  | .error e => .error e
  | .ok (dp, app) => .ok { posted := dp, appended := app }

/-- All `(slot, productId)` pairs present in a plan. -/
def plannedPairs (plan : DietPlan) : List (String × String) :=
  (plan.map (fun p => p.2.map (fun it => (p.1, it.productId)))).flatten

/-- The `(slot, productId)` pairs of a list of appended items. -/
def appendedPairs (app : List (String × DietPlanItem)) : List (String × String) :=
  app.map (fun si => (si.1, si.2.productId))

/-- Property of an appended `(slot, item)` pair: it stems from an entry of
the resolved-meal map whose slot mapping, weight conversion and duplicate
check allow an append. -/
def AppendedFrom (gen : ℕ → String) (now : String) (ex : DietPlan)
    (mw : List (String × PyVal)) (rest : List (String × String))
    (si : String × DietPlanItem) : Prop :=
  ∃ mn pid j w, (mn, pid) ∈ rest ∧ MEAL_MAPPING mn = some si.1 ∧
    pyInt (lookupD mw mn (PyVal.num 100)) = some w ∧
    si.2 = mkDietPlanItem (gen j) w pid now ∧
    ¬(pid ≠ "" ∧ slotHasProduct ex si.1 pid = true)

/-- Fresh-id source used by the witnesses. -/
def genU : ℕ → String := fun _ => "uuid-demo"

/-- A stale brand item (product `"Y"`) used by the C5 witness. -/
def cStale : DietPlanItem :=
  { planDayDietItemId := "old-1", foodType := "PRODUCT", measureId := 1,
    measureQuantity := 100, productId := "Y", source := "API",
    updatedAt := "2025-01-01 00:00:00", deletedAt := none, brand := some "Viking" }

/-- Item `cStale` after receiving the deletion timestamp `"NOW"`. -/
def cStaleStamped : DietPlanItem := { cStale with deletedAt := some "NOW" }

/-- A soft-deleted existing item for product `"X"` (C4 counterexample). -/
def cDel : DietPlanItem :=
  { planDayDietItemId := "old-2", foodType := "PRODUCT", measureId := 1,
    measureQuantity := 100, productId := "X", source := "API",
    updatedAt := "2025-01-01 00:00:00", deletedAt := some "2025-01-02 00:00:00",
    brand := some "Viking" }

/-- A live (not soft-deleted) existing item for product `"X"`. -/
def cCur : DietPlanItem :=
  { planDayDietItemId := "old-3", foodType := "PRODUCT", measureId := 1,
    measureQuantity := 100, productId := "X", source := "API",
    updatedAt := "2025-01-01 00:00:00", deletedAt := none, brand := some "Viking" }

/-- The rational 5/2, built in lowest terms so that it kernel-reduces. -/
def qHalf5 : ℚ := ⟨5, 2, by norm_num, by norm_num⟩

/-- A proleptic-Gregorian calendar date, the value `datetime.strptime`
produces from a `%Y-%m-%d` string (the embedding works on parsed dates). -/
structure Date where
  year : ℕ
  month : ℕ
  day : ℕ
deriving DecidableEq, Repr

/-- Gregorian leap-year rule, as in `datetime`. -/
def isLeap (y : ℕ) : Bool := (y % 4 == 0 && y % 100 != 0) || y % 400 == 0

/-- Days in a month (1-12) of a (non-)leap year. -/
def daysInMonth (leap : Bool) (m : ℕ) : ℕ :=
  match m with
  | 1 => 31
  | 2 => if leap then 29 else 28
  | 3 => 31
  | 4 => 30
  | 5 => 31
  | 6 => 30
  | 7 => 31
  | 8 => 31
  | 9 => 30
  | 10 => 31
  | 11 => 30
  | 12 => 31
  | _ => 0

/-- Days elapsed before month `m` in a year (the `_DAYS_BEFORE_MONTH` table
plus the leap adjustment used by `datetime`). -/
def monthOffset (leap : Bool) (m : ℕ) : ℕ :=
  (match m with
   | 1 => 0
   | 2 => 31
   | 3 => 59
   | 4 => 90
   | 5 => 120
   | 6 => 151
   | 7 => 181
   | 8 => 212
   | 9 => 243
   | 10 => 273
   | 11 => 304
   | 12 => 334
   | _ => 0)
  + (if leap ∧ m ≥ 3 then 1 else 0)

/-- Leap days among years `1..y`. -/
def leapsBefore (y : ℕ) : ℕ := y / 4 - y / 100 + y / 400

/-- Ordinal of the day before January 1st of year `y` (so the ordinal of a
date is `yearStart` plus the in-year offset), as in `datetime.toordinal`. -/
def yearStart (y : ℕ) : ℕ := 365 * (y - 1) + leapsBefore (y - 1)

/-- Embeds `datetime.date.toordinal`: day number in the proleptic Gregorian
calendar, with 0001-01-01 as day 1.  Subtracting two ordinals embeds
`(end - start).days`. -/
def toOrdinal (d : Date) : ℕ :=
  yearStart d.year + monthOffset (isLeap d.year) d.month + d.day

/-- The dates `datetime` can represent (the year bound of `datetime` is not
modelled; formatting is only claimed for four-digit years). -/
def IsValidDate (d : Date) : Prop :=
  1 ≤ d.year ∧ 1 ≤ d.month ∧ d.month ≤ 12 ∧ 1 ≤ d.day ∧
    d.day ≤ daysInMonth (isLeap d.year) d.month

/-- The successor day in the proleptic Gregorian calendar;
`d + timedelta(days=i)` is embedded as `nextDay^[i] d`. -/
def nextDay (d : Date) : Date :=
  if d.day < daysInMonth (isLeap d.year) d.month then ⟨d.year, d.month, d.day + 1⟩
  else if d.month < 12 then ⟨d.year, d.month + 1, 1⟩
  else ⟨d.year + 1, 1, 1⟩

/-- The decimal digit character for `n % 10`. -/
def digitChar (n : ℕ) : Char := Char.ofNat (48 + n % 10)

/-- Four-digit zero-padded decimal rendering (`%Y` for years up to 9999). -/
def pad4 (n : ℕ) : String :=
  String.mk [digitChar (n / 1000), digitChar (n / 100), digitChar (n / 10), digitChar n]

/-- Two-digit zero-padded decimal rendering (`%m`, `%d`). -/
def pad2 (n : ℕ) : String := String.mk [digitChar (n / 10), digitChar n]

/-- Embeds `strftime` with format `%Y-%m-%d`. -/
def formatDate (d : Date) : String :=
  pad4 d.year ++ "-" ++ pad2 d.month ++ "-" ++ pad2 d.day

/-- The function `select_dates`.  Here `target_dates` models `TARGET_DATES` (a list or
`None`), `target_date_range` models `TARGET_DATE_RANGE` (a two-element tuple
of already-parsed dates, or `None`).  The `if TARGET_DATES and
TARGET_DATE_RANGE` guard uses Python truthiness: an empty list is falsy.
The range branch builds `(end - start).days + 1` consecutive dates starting
at the start date (an empty list when the difference is negative, as
`range` does). -/
def select_dates (target_dates : Option (List String))
    (target_date_range : Option (Date × Date)) : Except Unit (List String) :=
  if (match target_dates with
      | some l => !l.isEmpty
      | none => false) && target_date_range.isSome then .error ()
  else
    match target_dates with
    | some l => .ok l
    | none =>
      match target_date_range with
      | some (s, e) =>
        .ok ((List.range (((toOrdinal e : ℤ) - (toOrdinal s : ℤ) + 1).toNat)).map
          (fun i => formatDate (nextDay^[i] s)))
      | none => .ok []

/-- Nutrition dict used by several witnesses: 200 kcal. -/
def nutr200 : List (String × PyVal) := [("calories", PyVal.num 200)]

/-- Claim C2: `values_match(existing, new)` is true iff either value fails to
convert to a number, or the absolute difference of the converted values is at
most 0.1% of the larger magnitude; in particular
`values_match(100.0, 100.05)` is true, `values_match(100.0, 102.0)` is false
and `values_match(None, 50)` is true. -/
theorem C2_values_match_spec :
    (∀ a b : PyVal, values_match a b = true ↔
      ((pyFloat a).isNone ∨ (pyFloat b).isNone ∨
        (∃ x y : ℚ, pyFloat a = some x ∧ pyFloat b = some y ∧
          |x - y| ≤ (1/1000 : ℚ) * max |x| |y|))) ∧
    values_match (PyVal.num 100) (PyVal.num (2001/20)) = true ∧
    values_match (PyVal.num 100) (PyVal.num 102) = false ∧
    values_match PyVal.null (PyVal.num 50) = true := by
  refine ⟨?_, ?_, ?_, by norm_num [values_match, pyFloat]⟩
  · intro a b
    cases a <;> cases b <;> simp [values_match, pyFloat]
  · norm_num [values_match, pyFloat]
    right; right
    rw [abs_of_nonneg (by norm_num), abs_of_nonneg (by norm_num),
      max_eq_right (by norm_num : (100:ℚ) ≤ 2001/20)]
    norm_num
  · norm_num [values_match, pyFloat]
    exact ⟨fun h => PyVal.noConfusion h, fun h => PyVal.noConfusion h⟩

/-- Claim C1: given a candidate list (with pairwise distinct food ids) whose
first calorie-matching product under `values_match` is `m`, the reconciler
returns `m`'s food id, creates nothing, and issues a delete call for exactly
the other candidates, regardless of their nutrition values. -/
theorem C1_first_match_and_dedup (existing_products : List Product)
    (nutrition : List (String × PyVal)) (menu_meal_name : String) (weight : PyVal)
    (create_result : Option String) (m : Product)
    (hnd : (existing_products.map (fun p => p.foodId)).Nodup)
    (hfind : existing_products.find?
      (fun p => values_match p.energy (lookupD nutrition "calories" PyVal.na)) = some m) :
    (create_or_find_product menu_meal_name nutrition weight existing_products
        create_result).result = some m.foodId ∧
    (create_or_find_product menu_meal_name nutrition weight existing_products
        create_result).created = none ∧
    (create_or_find_product menu_meal_name nutrition weight existing_products
        create_result).deletes =
      (existing_products.filter (fun p => p.foodId != m.foodId)).map (fun p => p.foodId) ∧
    (∀ p ∈ existing_products, p.foodId ≠ m.foodId →
      p.foodId ∈ (create_or_find_product menu_meal_name nutrition weight existing_products
        create_result).deletes) ∧
    m.foodId ∉ (create_or_find_product menu_meal_name nutrition weight existing_products
        create_result).deletes ∧
    (create_or_find_product menu_meal_name nutrition weight existing_products
        create_result).deletes.length + 1 = existing_products.length := by
  have hr : create_or_find_product menu_meal_name nutrition weight existing_products
      create_result =
      { result := some m.foodId
        deletes := (existing_products.filter (fun p => p.foodId != m.foodId)).map
          (fun p => p.foodId)
        created := none } := by
    unfold create_or_find_product
    rw [hfind]
  rw [hr]
  refine ⟨rfl, rfl, rfl, ?_, ?_, ?_⟩
  · intro p hp hne
    exact List.mem_map.2 ⟨p, List.mem_filter.2 ⟨hp, by simpa using hne⟩, rfl⟩
  · intro h
    obtain ⟨p, hpf, hpe⟩ := List.mem_map.1 h
    have := (List.mem_filter.1 hpf).2
    rw [hpe] at this
    simp at this
  · have hm : m ∈ existing_products := List.mem_of_find?_eq_some hfind
    have key : (existing_products.filter (fun p => p.foodId != m.foodId)).length +
        (existing_products.filter (fun p => p.foodId == m.foodId)).length =
        existing_products.length := by
      have hsplit := @List.length_eq_length_filter_add _ existing_products
        (fun p => p.foodId != m.foodId)
      simp only [bne, Bool.not_not] at hsplit ⊢
      omega
    have hone : (existing_products.filter (fun p => p.foodId == m.foodId)).length = 1 := by
      rw [← List.countP_eq_length_filter]
      have hcnt : existing_products.countP (fun p => p.foodId == m.foodId) =
          (existing_products.map (fun p => p.foodId)).count m.foodId := by
        rw [List.count_eq_countP, List.countP_map]
        apply List.countP_congr
        intro p _
        simp [Function.comp]
      rw [hcnt]
      have hle : (existing_products.map (fun p => p.foodId)).count m.foodId ≤ 1 :=
        List.nodup_iff_count_le_one.1 hnd m.foodId
      have hge : 0 < (existing_products.map (fun p => p.foodId)).count m.foodId :=
        List.count_pos_iff.2 (List.mem_map.2 ⟨m, hm, rfl⟩)
      omega
    rw [List.length_map]
    omega

/-- Witness for C1: with the three same-name candidates `pA`, `pB`, `pC`
(100/200/300 kcal) and a meal of 200 kcal, the reconciler returns `pB`'s id
and issues exactly two delete calls. -/
theorem C1_first_match_and_dedup_witness :
    (create_or_find_product "Meal" nutr200 (PyVal.num 250) [pA, pB, pC] none).result =
      some pB.foodId ∧
    (create_or_find_product "Meal" nutr200 (PyVal.num 250) [pA, pB, pC] none).deletes.length
      + 1 = 3 := by
  have hA : values_match pA.energy (lookupD nutr200 "calories" PyVal.na) = false := by
    norm_num [values_match, pyFloat, pA, nutr200, lookupD]
    exact ⟨fun h => PyVal.noConfusion h, fun h => PyVal.noConfusion h⟩
  have hB : values_match pB.energy (lookupD nutr200 "calories" PyVal.na) = true := by
    norm_num [values_match, pyFloat, pB, nutr200, lookupD]
  have hfind : [pA, pB, pC].find?
      (fun p => values_match p.energy (lookupD nutr200 "calories" PyVal.na)) = some pB := by
    rw [List.find?_cons_of_neg _ (by simp [hA]), List.find?_cons_of_pos _ (by simp [hB])]
  have h := C1_first_match_and_dedup [pA, pB, pC] nutr200 "Meal" (PyVal.num 250) none pB
    (by decide) hfind
  exact ⟨h.1, h.2.2.2.2.2⟩

/-- Claim C10: a failed product search returns the empty list, which is
indistinguishable from an empty tracker, so the reconciler issues a create
call for a brand-new product even when a matching product (which a successful
search would have reused) exists in the tracker. -/
theorem C10_search_failure_creates (name : String) (nutrition : List (String × PyVal))
    (weight : PyVal) (create_result : Option String) (p : Product)
    (hname : p.name = name) (hbrand : p.brand = BRAND)
    (hmatch : values_match p.energy (lookupD nutrition "calories" PyVal.na) = true) :
    search_all_products none name = [] ∧
    search_all_products none name = search_all_products (some []) name ∧
    create_or_find_product name nutrition weight (search_all_products none name)
        create_result =
      { result := create_result, deletes := [],
        created := some (mkProductData name nutrition weight) } ∧
    (create_or_find_product name nutrition weight (search_all_products (some [p]) name)
        create_result).result = some p.foodId ∧
    (create_or_find_product name nutrition weight (search_all_products (some [p]) name)
        create_result).created = none := by
  have hs : search_all_products (some [p]) name = [p] := by
    simp [search_all_products, hname, hbrand]
  have hf : [p].find?
      (fun q => values_match q.energy (lookupD nutrition "calories" PyVal.na)) = some p :=
    List.find?_cons_of_pos _ hmatch
  refine ⟨rfl, rfl, rfl, ?_, ?_⟩ <;>
    rw [hs] <;>
    simp [create_or_find_product, hf]

/-- Witness for C10: concrete 200 kcal meal with matching candidate `pB`. -/
theorem C10_search_failure_creates_witness :
    search_all_products none "Meal" = [] ∧
    search_all_products none "Meal" = search_all_products (some []) "Meal" ∧
    create_or_find_product "Meal" nutr200 (PyVal.num 250) (search_all_products none "Meal")
        (some "NEW") =
      { result := some "NEW", deletes := [],
        created := some (mkProductData "Meal" nutr200 (PyVal.num 250)) } ∧
    (create_or_find_product "Meal" nutr200 (PyVal.num 250)
        (search_all_products (some [pB]) "Meal") (some "NEW")).result = some pB.foodId ∧
    (create_or_find_product "Meal" nutr200 (PyVal.num 250)
        (search_all_products (some [pB]) "Meal") (some "NEW")).created = none :=
  C10_search_failure_creates "Meal" nutr200 (PyVal.num 250) (some "NEW") pB rfl rfl
    (by norm_num [values_match, pyFloat, pB, nutr200, lookupD])

/-- Keys after a Python dict assignment: the assigned key together with the
previous keys. -/
theorem mem_keys_dictInsert {α : Type} (d : List (String × α)) (k k' : String) (v : α) :
    k' ∈ (dictInsert d k v).map Prod.fst ↔ k' = k ∨ k' ∈ d.map Prod.fst := by
  unfold dictInsert
  split_ifs with h
  · have hkeys : (d.map (fun p => if p.1 == k then (k, v) else p)).map Prod.fst =
        d.map Prod.fst := by
      rw [List.map_map]
      apply List.map_congr_left
      intro p _
      by_cases hp : p.1 = k
      · simp [Function.comp, hp]
      · simp [Function.comp, hp]
    rw [hkeys]
    constructor
    · exact Or.inr
    · rintro (rfl | hm)
      · obtain ⟨p, hp, hpk⟩ := List.any_eq_true.1 h
        exact List.mem_map.2 ⟨p, hp, by simpa using hpk⟩
      · exact hm
  · simp [or_comm]

/-- Key membership of both maps accumulated by the meal loop, assuming the
reconciler never returns an empty-string id. -/
theorem process_meal_loop_keys
    (reconcile : String → List (String × PyVal) → PyVal → Option String)
    (hid : ∀ mm nut w pid, reconcile mm nut w = some pid → pid ≠ "") :
    ∀ (meals : List VikingMeal) (acc1 : List (String × String))
      (acc2 : List (String × PyVal)) (name : String),
      (name ∈ (process_meal_loop reconcile meals acc1 acc2).1.map Prod.fst ↔
        name ∈ acc1.map Prod.fst ∨ ∃ meal ∈ meals, meal.mealName = name ∧
          QualMeal reconcile meal) ∧
      (name ∈ (process_meal_loop reconcile meals acc1 acc2).2.map Prod.fst ↔
        name ∈ acc2.map Prod.fst ∨ ∃ meal ∈ meals, meal.mealName = name ∧
          QualMeal reconcile meal) := by
  intro meals
  induction meals with
  | nil =>
    intro acc1 acc2 name
    simp [process_meal_loop]
  | cons meal rest ih =>
    intro acc1 acc2 name
    by_cases hdel : meal.deliveryMealId.isNone = true
    · have hq : ¬ QualMeal reconcile meal := by
        rintro ⟨hs, -⟩
        rw [Option.isNone_iff_eq_none.1 hdel] at hs
        simp at hs
      have hred : process_meal_loop reconcile (meal :: rest) acc1 acc2 =
          process_meal_loop reconcile rest acc1 acc2 := by
        simp only [process_meal_loop, hdel, if_true]
      rw [hred]
      have hcons : (∃ x ∈ meal :: rest, x.mealName = name ∧ QualMeal reconcile x) ↔
          (∃ x ∈ rest, x.mealName = name ∧ QualMeal reconcile x) := by
        constructor
        · rintro ⟨x, hx, hp⟩
          rcases List.mem_cons.1 hx with rfl | hx'
          · exact absurd hp.2 hq
          · exact ⟨x, hx', hp⟩
        · rintro ⟨x, hx, hp⟩
          exact ⟨x, List.mem_cons_of_mem _ hx, hp⟩
      rcases ih acc1 acc2 name with ⟨ih1, ih2⟩
      exact ⟨ih1.trans (or_congr Iff.rfl hcons.symm),
        ih2.trans (or_congr Iff.rfl hcons.symm)⟩
    · cases hmm : meal.menuMealName with
      | none =>
        have hq : ¬ QualMeal reconcile meal := by
          rintro ⟨-, mm, hsome, -, -⟩
          rw [hmm] at hsome
          exact Option.noConfusion hsome
        have hred : process_meal_loop reconcile (meal :: rest) acc1 acc2 =
            process_meal_loop reconcile rest acc1 acc2 := by
          simp only [process_meal_loop, hmm]
          rw [if_neg hdel]
        rw [hred]
        have hcons : (∃ x ∈ meal :: rest, x.mealName = name ∧ QualMeal reconcile x) ↔
            (∃ x ∈ rest, x.mealName = name ∧ QualMeal reconcile x) := by
          constructor
          · rintro ⟨x, hx, hp⟩
            rcases List.mem_cons.1 hx with rfl | hx'
            · exact absurd hp.2 hq
            · exact ⟨x, hx', hp⟩
          · rintro ⟨x, hx, hp⟩
            exact ⟨x, List.mem_cons_of_mem _ hx, hp⟩
        rcases ih acc1 acc2 name with ⟨ih1, ih2⟩
        exact ⟨ih1.trans (or_congr Iff.rfl hcons.symm),
          ih2.trans (or_congr Iff.rfl hcons.symm)⟩
      | some mm =>
        by_cases hne : mm = ""
        · have hq : ¬ QualMeal reconcile meal := by
            rintro ⟨-, mm', hsome, hne', -⟩
            rw [hmm] at hsome
            exact hne' (by rw [← Option.some.inj hsome, hne])
          have hred : process_meal_loop reconcile (meal :: rest) acc1 acc2 =
              process_meal_loop reconcile rest acc1 acc2 := by
            simp only [process_meal_loop, hmm]
            rw [if_neg hdel, if_neg (by simpa using hne)]
          rw [hred]
          have hcons : (∃ x ∈ meal :: rest, x.mealName = name ∧ QualMeal reconcile x) ↔
              (∃ x ∈ rest, x.mealName = name ∧ QualMeal reconcile x) := by
            constructor
            · rintro ⟨x, hx, hp⟩
              rcases List.mem_cons.1 hx with rfl | hx'
              · exact absurd hp.2 hq
              · exact ⟨x, hx', hp⟩
            · rintro ⟨x, hx, hp⟩
              exact ⟨x, List.mem_cons_of_mem _ hx, hp⟩
          rcases ih acc1 acc2 name with ⟨ih1, ih2⟩
          exact ⟨ih1.trans (or_congr Iff.rfl hcons.symm),
            ih2.trans (or_congr Iff.rfl hcons.symm)⟩
        · cases hrec : reconcile mm meal.nutrition
              (lookupD meal.nutrition "weight" PyVal.na) with
          | none =>
            have hq : ¬ QualMeal reconcile meal := by
              rintro ⟨-, mm', hsome, -, hsom⟩
              rw [hmm] at hsome
              rw [← Option.some.inj hsome, hrec] at hsom
              simp at hsom
            have hred : process_meal_loop reconcile (meal :: rest) acc1 acc2 =
                process_meal_loop reconcile rest acc1 acc2 := by
              simp only [process_meal_loop, hmm, hrec]
              rw [if_neg hdel, if_pos hne]
            rw [hred]
            have hcons : (∃ x ∈ meal :: rest, x.mealName = name ∧ QualMeal reconcile x) ↔
                (∃ x ∈ rest, x.mealName = name ∧ QualMeal reconcile x) := by
              constructor
              · rintro ⟨x, hx, hp⟩
                rcases List.mem_cons.1 hx with rfl | hx'
                · exact absurd hp.2 hq
                · exact ⟨x, hx', hp⟩
              · rintro ⟨x, hx, hp⟩
                exact ⟨x, List.mem_cons_of_mem _ hx, hp⟩
            rcases ih acc1 acc2 name with ⟨ih1, ih2⟩
            exact ⟨ih1.trans (or_congr Iff.rfl hcons.symm),
              ih2.trans (or_congr Iff.rfl hcons.symm)⟩
          | some pid =>
            have hpid : pid ≠ "" := hid _ _ _ _ hrec
            have hsome : meal.deliveryMealId.isSome = true := by
              cases hd : meal.deliveryMealId with
              | none => rw [hd] at hdel; simp at hdel
              | some d => rfl
            have hqual : QualMeal reconcile meal :=
              ⟨hsome, mm, hmm, hne, by rw [hrec]; rfl⟩
            have hred : process_meal_loop reconcile (meal :: rest) acc1 acc2 =
                process_meal_loop reconcile rest
                  (dictInsert acc1 meal.mealName pid)
                  (dictInsert acc2 meal.mealName
                    (lookupD meal.nutrition "weight" PyVal.na)) := by
              simp only [process_meal_loop, hmm, hrec]
              rw [if_neg hdel, if_pos hne, if_pos hpid]
            rw [hred]
            rcases ih (dictInsert acc1 meal.mealName pid)
              (dictInsert acc2 meal.mealName
                (lookupD meal.nutrition "weight" PyVal.na)) name with ⟨ih1, ih2⟩
            have hstep : ∀ accmem : Prop,
                (((name = meal.mealName ∨ accmem) ∨
                  ∃ x ∈ rest, x.mealName = name ∧ QualMeal reconcile x) ↔
                (accmem ∨ ∃ x ∈ meal :: rest, x.mealName = name ∧
                  QualMeal reconcile x)) := by
              intro accmem
              constructor
              · rintro ((rfl | hacc) | ⟨x, hx, hp⟩)
                · exact Or.inr ⟨meal, List.mem_cons_self meal rest, rfl, hqual⟩
                · exact Or.inl hacc
                · exact Or.inr ⟨x, List.mem_cons_of_mem _ hx, hp⟩
              · rintro (hacc | ⟨x, hx, hnm, hq⟩)
                · exact Or.inl (Or.inr hacc)
                · rcases List.mem_cons.1 hx with rfl | hx'
                  · exact Or.inl (Or.inl hnm.symm)
                  · exact Or.inr ⟨x, hx', hnm, hq⟩
            constructor
            · rw [ih1, mem_keys_dictInsert]
              exact hstep _
            · rw [ih2, mem_keys_dictInsert]
              exact hstep _

/-- Claim C9: for a delivery whose detail fetch succeeds, a meal name is a
key of the returned meal-id map (and of the weight map) exactly when some
meal line with that name has a non-null `deliveryMealId`, a non-empty
`menuMealName`, and a truthy reconciled product id; in particular a meal
with `deliveryMealId = null` never contributes. -/
theorem C9_meal_filtering
    (reconcile : String → List (String × PyVal) → PyVal → Option String)
    (meals : List VikingMeal) (meal_ids : List (String × String))
    (meal_weights : List (String × PyVal))
    (hid : ∀ mm nut w pid, reconcile mm nut w = some pid → pid ≠ "")
    (hproc : process_meal (some meals) reconcile = some (meal_ids, meal_weights)) :
    ∀ name : String,
      (name ∈ meal_ids.map Prod.fst ↔ ∃ meal ∈ meals, meal.mealName = name ∧
        meal.deliveryMealId.isSome ∧ ∃ mm, meal.menuMealName = some mm ∧ mm ≠ "" ∧
          (reconcile mm meal.nutrition (lookupD meal.nutrition "weight" PyVal.na)).isSome) ∧
      (name ∈ meal_weights.map Prod.fst ↔ ∃ meal ∈ meals, meal.mealName = name ∧
        meal.deliveryMealId.isSome ∧ ∃ mm, meal.menuMealName = some mm ∧ mm ≠ "" ∧
          (reconcile mm meal.nutrition (lookupD meal.nutrition "weight" PyVal.na)).isSome) := by
  have hpm : process_meal_loop reconcile meals [] [] = (meal_ids, meal_weights) := by
    simpa [process_meal] using hproc
  intro name
  have h := process_meal_loop_keys reconcile hid meals [] [] name
  rw [hpm] at h
  simpa [QualMeal] using h

/-- Witness for C9: with one undelivered meal (`mealNull`) and one delivered
meal (`mealOk`), only `"Obiad"` appears in the returned maps. -/
theorem C9_meal_filtering_witness :
    ("Obiad" ∈ ([("Obiad", "P1")] : List (String × String)).map Prod.fst ↔
      ∃ meal ∈ [mealNull, mealOk], meal.mealName = "Obiad" ∧
        meal.deliveryMealId.isSome ∧ ∃ mm, meal.menuMealName = some mm ∧ mm ≠ "" ∧
          (reconDemo mm meal.nutrition (lookupD meal.nutrition "weight" PyVal.na)).isSome) :=
  (C9_meal_filtering reconDemo [mealNull, mealOk] [("Obiad", "P1")]
    [("Obiad", PyVal.num 250)]
    (by
      intro mm nut w pid h
      simp only [reconDemo, Option.some.injEq] at h
      rw [← h]
      decide)
    rfl "Obiad").1

/-- Dict lookup on a cons cell. -/
theorem planLookup_cons (k : String) (its : List DietPlanItem) (tl : DietPlan)
    (key : String) :
    planLookup ((k, its) :: tl) key = if k = key then some its else planLookup tl key := by
  unfold planLookup
  by_cases h : k = key
  · rw [List.find?_cons_of_pos _ (by simpa using h)]
    simp [h]
  · rw [List.find?_cons_of_neg _ (by simpa using h)]
    simp [h]

/-- Lemma: `appendToSlot` appends to the addressed slot and leaves other slots
alone (creating the slot when absent). -/
theorem planLookup_appendToSlot (dp : DietPlan) (key key' : String) (it : DietPlanItem) :
    planLookup (appendToSlot dp key it) key' =
      if key' = key then some ((planLookup dp key).getD [] ++ [it])
      else planLookup dp key' := by
  induction dp with
  | nil =>
    by_cases h : key' = key <;> simp [appendToSlot, planLookup_cons, h, planLookup]
    intro h'
    exact absurd h'.symm h
  | cons hd tl ih =>
    obtain ⟨k, its⟩ := hd
    by_cases hk : k = key
    · subst hk
      rw [show appendToSlot ((k, its) :: tl) k it = (k, its ++ [it]) :: tl from by
        simp [appendToSlot]]
      by_cases h : key' = k
      · subst h
        simp [planLookup_cons]
      · simp [planLookup_cons, Ne.symm h, h]
    · rw [show appendToSlot ((k, its) :: tl) key it = (k, its) :: appendToSlot tl key it from by
        simp [appendToSlot, hk]]
      by_cases h : key' = k
      · subst h
        simp [planLookup_cons, hk]
      · simp [planLookup_cons, Ne.symm h, ih, hk]

/-- A skip result of `add_meal_to_diet_plan` leaves the plan unchanged. -/
theorem add_meal_ok_none (gen : ℕ → String) (now : String) (k : ℕ) (dp : DietPlan)
    (mn pid : String) (wt : PyVal) (ex : DietPlan) (dp1 : DietPlan)
    (h : add_meal_to_diet_plan gen now k dp mn pid wt ex = .ok (dp1, none)) :
    dp1 = dp := by
  unfold add_meal_to_diet_plan at h
  split at h
  · simp only [Except.ok.injEq, Prod.mk.injEq] at h
    exact h.1.symm
  · split at h
    · simp only [Except.ok.injEq, Prod.mk.injEq] at h
      exact h.1.symm
    · split at h
      · exact Except.noConfusion h
      · simp only [Except.ok.injEq, Prod.mk.injEq] at h
        exact Option.noConfusion h.2

/-- An append result of `add_meal_to_diet_plan` determines its components. -/
theorem add_meal_ok_some (gen : ℕ → String) (now : String) (k : ℕ) (dp : DietPlan)
    (mn pid : String) (wt : PyVal) (ex : DietPlan) (dp1 : DietPlan)
    (si : String × DietPlanItem)
    (h : add_meal_to_diet_plan gen now k dp mn pid wt ex = .ok (dp1, some si)) :
    ∃ s w, MEAL_MAPPING mn = some s ∧
      ¬(pid ≠ "" ∧ slotHasProduct ex s pid = true) ∧ pyInt wt = some w ∧
      si = (s, mkDietPlanItem (gen k) w pid now) ∧
      dp1 = appendToSlot dp s (mkDietPlanItem (gen k) w pid now) := by
  unfold add_meal_to_diet_plan at h
  split at h
  · simp only [Except.ok.injEq, Prod.mk.injEq] at h
    exact Option.noConfusion h.2
  · next s hm =>
    split at h
    · simp only [Except.ok.injEq, Prod.mk.injEq] at h
      exact Option.noConfusion h.2
    · next hc =>
      split at h
      · exact Except.noConfusion h
      · next w hw =>
        simp only [Except.ok.injEq, Prod.mk.injEq] at h
        exact ⟨s, w, hm, hc, hw, (Option.some.inj h.2).symm, h.1.symm⟩

/-- Stamping stale items does not change product ids. -/
theorem stampItems_productId (now : String) (vals : List String)
    (items : List DietPlanItem) :
    (stampItems now vals items).map (fun it => it.productId) =
      items.map (fun it => it.productId) := by
  unfold stampItems
  rw [List.map_map]
  apply List.map_congr_left
  intro it _
  dsimp [Function.comp]
  split <;> rfl

/-- The duplicate check sees the same product ids before and after
stamping. -/
theorem slotHasProduct_stamped (now : String) (vals : List String) (plan : DietPlan)
    (key pid : String) :
    slotHasProduct (plan.map (fun p => (p.1, stampItems now vals p.2))) key pid =
      slotHasProduct plan key pid := by
  induction plan with
  | nil => rfl
  | cons hd tl ih =>
    obtain ⟨k, its⟩ := hd
    unfold slotHasProduct
    rw [List.map_cons]
    rw [planLookup_cons, planLookup_cons]
    by_cases h : k = key
    · rw [if_pos h, if_pos h]
      have hany : (stampItems now vals its).any (fun it => it.productId == pid) =
          its.any (fun it => it.productId == pid) := by
        unfold stampItems
        rw [List.any_map]
        congr 1
        funext it
        dsimp [Function.comp]
        split <;> rfl
      dsimp only
      exact hany
    · rw [if_neg h, if_neg h]
      unfold slotHasProduct at ih
      exact ih

/-- A pair of `plannedPairs` names a key of the plan. -/
theorem mem_keys_of_mem_plannedPairs (plan : DietPlan) (s pid : String)
    (h : (s, pid) ∈ plannedPairs plan) : s ∈ plan.map Prod.fst := by
  induction plan with
  | nil => simp [plannedPairs] at h
  | cons hd tl ih =>
    obtain ⟨k, its⟩ := hd
    unfold plannedPairs at h
    rw [List.map_cons, List.flatten_cons] at h
    rw [List.map_cons]
    rcases List.mem_append.1 h with h1 | h2
    · obtain ⟨it, -, heq⟩ := List.mem_map.1 h1
      have hk : k = s := congrArg Prod.fst heq
      rw [← hk]
      exact List.mem_cons_self _ _
    · exact List.mem_cons_of_mem _ (ih h2)

/-- The duplicate check on a cons cell of the plan. -/
theorem slotHasProduct_cons (k : String) (its : List DietPlanItem) (tl : DietPlan)
    (key pid : String) :
    slotHasProduct ((k, its) :: tl) key pid =
      if k = key then its.any (fun it => it.productId == pid)
      else slotHasProduct tl key pid := by
  unfold slotHasProduct
  rw [planLookup_cons]
  by_cases h : k = key <;> simp [h]

/-- A `(slot, productId)` pair present in a plan with unique keys is found
by the duplicate check. -/
theorem slotHasProduct_of_mem_plannedPairs (plan : DietPlan)
    (hkeys : (plan.map Prod.fst).Nodup) (s pid : String)
    (h : (s, pid) ∈ plannedPairs plan) : slotHasProduct plan s pid = true := by
  induction plan with
  | nil => simp [plannedPairs] at h
  | cons hd tl ih =>
    obtain ⟨k, its⟩ := hd
    rw [List.map_cons] at hkeys
    have hknot : k ∉ tl.map Prod.fst := (List.nodup_cons.1 hkeys).1
    have hkeys' : (tl.map Prod.fst).Nodup := (List.nodup_cons.1 hkeys).2
    unfold plannedPairs at h
    rw [List.map_cons, List.flatten_cons] at h
    rcases List.mem_append.1 h with h1 | h2
    · obtain ⟨it, hit, heq⟩ := List.mem_map.1 h1
      have hk : k = s := congrArg Prod.fst heq
      have hpid : it.productId = pid := congrArg Prod.snd heq
      rw [slotHasProduct_cons, if_pos hk]
      exact List.any_eq_true.2 ⟨it, hit, by simp [hpid]⟩
    · have hs : s ∈ tl.map Prod.fst := mem_keys_of_mem_plannedPairs tl s pid h2
      have hk : k ≠ s := fun he => hknot (he ▸ hs)
      rw [slotHasProduct_cons, if_neg hk]
      exact ih hkeys' h2

/-- The default meal mapping is inverted by `MEAL_MAPPING_inv`. -/
theorem MEAL_MAPPING_inv_correct (n s : String) (h : MEAL_MAPPING n = some s) :
    MEAL_MAPPING_inv s = some n := by
  unfold MEAL_MAPPING at h
  split_ifs at h with h1 h2 h3 h4 h5 <;>
    first
      | (obtain rfl := Option.some.inj h
         subst_vars
         rfl)
      | exact Option.noConfusion h

/-- The default meal mapping is injective on names it maps. -/
theorem MEAL_MAPPING_inj (n1 n2 s : String) (h1 : MEAL_MAPPING n1 = some s)
    (h2 : MEAL_MAPPING n2 = some s) : n1 = n2 := by
  have e1 := MEAL_MAPPING_inv_correct n1 s h1
  have e2 := MEAL_MAPPING_inv_correct n2 s h2
  rw [e1] at e2
  exact Option.some.inj e2

/-- Invariant of the publish loop: every appended pair stems from a
remaining resolved meal that passed the duplicate check; appended slots
follow the mapped meal names; appended uuids use fresh, pairwise distinct
counters; and every slot's item list only ever grows at its end. -/
theorem publishLoop_spec (gen : ℕ → String) (now : String) (ex : DietPlan)
    (mw : List (String × PyVal)) :
    ∀ (rest : List (String × String)) (dp : DietPlan) (k : ℕ)
      (app : List (String × DietPlanItem)) (dp' : DietPlan)
      (app' : List (String × DietPlanItem)),
      publishLoop gen now ex mw rest dp k app = .ok (dp', app') →
      (∀ si ∈ app', si ∈ app ∨ AppendedFrom gen now ex mw rest si) ∧
      (app'.map Prod.fst).Sublist
        (app.map Prod.fst ++ (rest.map Prod.fst).filterMap MEAL_MAPPING) ∧
      (∃ js : List ℕ, app'.map (fun si => si.2.planDayDietItemId) =
        app.map (fun si => si.2.planDayDietItemId) ++ js.map gen ∧
        js.Nodup ∧ ∀ j ∈ js, k ≤ j) ∧
      (∀ key items, planLookup dp key = some items →
        ∃ extra, planLookup dp' key = some (items ++ extra)) := by
  intro rest
  induction rest with
  | nil =>
    intro dp k app dp' app' h
    unfold publishLoop at h
    simp only [Except.ok.injEq, Prod.mk.injEq] at h
    obtain ⟨rfl, rfl⟩ := h
    refine ⟨fun si hs => Or.inl hs, List.sublist_append_left _ _,
      ⟨[], by simp, List.nodup_nil, by simp⟩,
      fun key items hk => ⟨[], by simpa using hk⟩⟩
  | cons hd rest ih =>
    obtain ⟨mn, pid⟩ := hd
    intro dp k app dp' app' h
    rw [show publishLoop gen now ex mw ((mn, pid) :: rest) dp k app =
        (match add_meal_to_diet_plan gen now k dp mn pid
            (lookupD mw mn (PyVal.num 100)) ex with
        | .error e => .error e
        | .ok (dp1, none) => publishLoop gen now ex mw rest dp1 k app
        | .ok (dp1, some si) =>
          publishLoop gen now ex mw rest dp1 (k + 1) (app ++ [si])) from rfl] at h
    cases ham : add_meal_to_diet_plan gen now k dp mn pid
        (lookupD mw mn (PyVal.num 100)) ex with
    | error e =>
      rw [ham] at h
      exact Except.noConfusion h
    | ok pr =>
      obtain ⟨dp1, opt⟩ := pr
      cases opt with
      | none =>
        rw [ham] at h
        have hdp : dp1 = dp := add_meal_ok_none _ _ _ _ _ _ _ _ _ ham
        subst hdp
        obtain ⟨ih1, ih2, ih3, ih4⟩ := ih dp1 k app dp' app' h
        refine ⟨?_, ?_, ih3, ih4⟩
        · intro si hs
          rcases ih1 si hs with hmem | hap
          · exact Or.inl hmem
          · obtain ⟨mn', pid', j, w, hmem', hrest⟩ := hap
            exact Or.inr ⟨mn', pid', j, w, List.mem_cons_of_mem _ hmem', hrest⟩
        · cases hmm2 : MEAL_MAPPING mn with
          | none =>
            rw [List.map_cons, List.filterMap_cons, hmm2]
            exact ih2
          | some s =>
            rw [List.map_cons, List.filterMap_cons, hmm2]
            exact ih2.trans (List.Sublist.append_left (List.sublist_cons_self _ _) _)
      | some si0 =>
        rw [ham] at h
        obtain ⟨s, w, hmap, hnot, hw, hsi, hdp1⟩ :=
          add_meal_ok_some _ _ _ _ _ _ _ _ _ _ ham
        obtain ⟨ih1, ih2, ih3, ih4⟩ := ih dp1 (k + 1) (app ++ [si0]) dp' app' h
        refine ⟨?_, ?_, ?_, ?_⟩
        · intro si hs
          rcases ih1 si hs with hmem | hap
          · rcases List.mem_append.1 hmem with hmem' | hmem''
            · exact Or.inl hmem'
            · have hsis : si = si0 := by simpa using hmem''
              subst hsis
              right
              refine ⟨mn, pid, k, w, List.mem_cons_self _ _, ?_, hw, ?_, ?_⟩
              · rw [hsi]
                exact hmap
              · rw [hsi]
              · rw [hsi]
                exact hnot
          · obtain ⟨mn', pid', j, w', hmem', hrest⟩ := hap
            exact Or.inr ⟨mn', pid', j, w', List.mem_cons_of_mem _ hmem', hrest⟩
        · rw [List.map_cons, List.filterMap_cons, hmap]
          have happ : (app ++ [si0]).map Prod.fst = app.map Prod.fst ++ [s] := by
            rw [List.map_append]
            simp [hsi]
          rw [happ, List.append_assoc] at ih2
          simpa using ih2
        · obtain ⟨js, hjs, hnd, hge⟩ := ih3
          refine ⟨k :: js, ?_, ?_, ?_⟩
          · rw [hjs, List.map_append,
              show ([si0].map fun si => si.2.planDayDietItemId) = [gen k] from by
                rw [hsi]; rfl]
            simp
          · exact List.nodup_cons.2 ⟨fun hkj => by have := hge k hkj; omega, hnd⟩
          · intro j hj
            rcases List.mem_cons.1 hj with rfl | hj'
            · exact le_refl j
            · exact le_of_lt (hge j hj')
        · intro key items hlk
          have step : ∃ e1, planLookup dp1 key = some (items ++ e1) := by
            rw [hdp1, planLookup_appendToSlot]
            by_cases hks : key = s
            · refine ⟨[mkDietPlanItem (gen k) w pid now], ?_⟩
              rw [if_pos hks, ← hks, hlk]
              rfl
            · refine ⟨[], ?_⟩
              rw [if_neg hks, hlk]
              simp
          obtain ⟨e1, he1⟩ := step
          obtain ⟨e2, he2⟩ := ih4 key (items ++ e1) he1
          exact ⟨e1 ++ e2, by rw [he2, List.append_assoc]⟩

/-- Unfolding a successful `publish_diet_plan` run into its loop. -/
theorem publish_ok_elim (gen : ℕ → String) (now : String)
    (meal_ids : List (String × String)) (meal_weights : List (String × PyVal))
    (existing_plan0 : DietPlan) (r : PublishOutcome)
    (h : publish_diet_plan gen now meal_ids meal_weights existing_plan0 = .ok r) :
    publishLoop gen now
      (existing_plan0.map
        (fun p => (p.1, stampItems now (meal_ids.map Prod.snd) p.2)))
      meal_weights meal_ids
      ((existing_plan0.map
          (fun p => (p.1, stampItems now (meal_ids.map Prod.snd) p.2))).filter
        (fun p => !p.2.isEmpty))
      0 [] = .ok (r.posted, r.appended) := by
  unfold publish_diet_plan at h
  cases hl : publishLoop gen now
      (existing_plan0.map
        (fun p => (p.1, stampItems now (meal_ids.map Prod.snd) p.2)))
      meal_weights meal_ids
      ((existing_plan0.map
          (fun p => (p.1, stampItems now (meal_ids.map Prod.snd) p.2))).filter
        (fun p => !p.2.isEmpty))
      0 [] with
  | error e =>
    rw [hl] at h
    exact Except.noConfusion h
  | ok pr =>
    obtain ⟨dp, app⟩ := pr
    rw [hl] at h
    have := Except.ok.inj h
    rw [← this]

/-- Looking up a slot of the stamped existing plan (unique keys). -/
theorem planLookup_map_stamp (now : String) (vals : List String) (ex0 : DietPlan)
    (hkeys : (ex0.map Prod.fst).Nodup) (slot : String) (items : List DietPlanItem)
    (hmem : (slot, items) ∈ ex0) :
    planLookup (ex0.map (fun p => (p.1, stampItems now vals p.2))) slot =
      some (stampItems now vals items) := by
  induction ex0 with
  | nil => simp at hmem
  | cons hd tl ih =>
    obtain ⟨k, its⟩ := hd
    rw [List.map_cons] at hkeys
    have hknot : k ∉ tl.map Prod.fst := (List.nodup_cons.1 hkeys).1
    have hkeys' : (tl.map Prod.fst).Nodup := (List.nodup_cons.1 hkeys).2
    rcases List.mem_cons.1 hmem with heq | hmem'
    · have hk : k = slot := (congrArg Prod.fst heq).symm
      have hits : its = items := (congrArg Prod.snd heq).symm
      rw [List.map_cons, planLookup_cons]
      dsimp only
      rw [if_pos hk, hits]
    · have hs : slot ∈ tl.map Prod.fst := List.mem_map.2 ⟨(slot, items), hmem', rfl⟩
      have hk : k ≠ slot := fun he => hknot (he ▸ hs)
      rw [List.map_cons, planLookup_cons, if_neg hk]
      exact ih hkeys' hmem'

/-- Dropping empty slots does not affect lookups of non-empty slots. -/
theorem planLookup_filter_nonempty (plan : DietPlan) (slot : String)
    (l : List DietPlanItem) (h : planLookup plan slot = some l) (hne : l ≠ []) :
    planLookup (plan.filter (fun p => !p.2.isEmpty)) slot = some l := by
  induction plan with
  | nil => simp [planLookup] at h
  | cons hd tl ih =>
    obtain ⟨k, its⟩ := hd
    rw [planLookup_cons] at h
    by_cases hk : k = slot
    · rw [if_pos hk] at h
      have hil : its = l := Option.some.inj h
      subst hil
      have hits : (!its.isEmpty) = true := by
        cases its with
        | nil => exact absurd rfl hne
        | cons a b => rfl
      rw [List.filter_cons]
      dsimp only at hits ⊢
      rw [hits]
      simp only [if_true]
      rw [planLookup_cons, if_pos hk]
    · rw [if_neg hk] at h
      rw [List.filter_cons]
      by_cases he : (!its.isEmpty) = true
      · dsimp only at he ⊢
        rw [he]
        simp only [if_true]
        rw [planLookup_cons, if_neg hk]
        exact ih h
      · dsimp only at he ⊢
        rw [Bool.not_eq_true] at he
        rw [he]
        simp only [Bool.false_eq_true, if_false]
        exact ih h

/-- Claim C5: during a publish, every existing (brand-filtered) item whose
`productId` is not among the resolved ids is carried over with a deletion
timestamp, and every existing item whose `productId` is resolved is carried
over entirely unchanged; the slot's stamped items form a prefix of the
posted slot. -/
theorem C5_stale_stamping (gen : ℕ → String) (now : String)
    (meal_ids : List (String × String)) (meal_weights : List (String × PyVal))
    (existing_plan0 : DietPlan) (r : PublishOutcome) (slot : String)
    (items : List DietPlanItem)
    (hkeys : (existing_plan0.map Prod.fst).Nodup)
    (hpub : publish_diet_plan gen now meal_ids meal_weights existing_plan0 = .ok r)
    (hmem : (slot, items) ∈ existing_plan0) (hne : items ≠ []) :
    ∃ extra, planLookup r.posted slot =
      some ((items.map (fun it =>
        if (meal_ids.map Prod.snd).contains it.productId then it
        else { it with deletedAt := some now })) ++ extra) := by
  have hloop := publish_ok_elim _ _ _ _ _ _ hpub
  have hstamp := planLookup_map_stamp now (meal_ids.map Prod.snd) existing_plan0
    hkeys slot items hmem
  have hsne : stampItems now (meal_ids.map Prod.snd) items ≠ [] := by
    intro hcon
    apply hne
    have hlen : (stampItems now (meal_ids.map Prod.snd) items).length = items.length := by
      unfold stampItems
      rw [List.length_map]
    rw [hcon] at hlen
    exact List.length_eq_zero.1 hlen.symm
  have hbase := planLookup_filter_nonempty _ slot _ hstamp hsne
  obtain ⟨-, -, -, hgrow⟩ := publishLoop_spec gen now _ meal_weights meal_ids _ 0 []
    r.posted r.appended hloop
  obtain ⟨extra, hex⟩ := hgrow slot _ hbase
  exact ⟨extra, by rw [hex]; rfl⟩

/-- Witness for C5: one stale existing item and no resolved meals; the item
is carried over with the deletion timestamp. -/
theorem C5_stale_stamping_witness :
    ∃ extra, planLookup
        (PublishOutcome.mk [("breakfast", [cStaleStamped])] []).posted "breakfast" =
      some (([cStale].map (fun it =>
        if (([] : List (String × String)).map Prod.snd).contains it.productId then it
        else { it with deletedAt := some "NOW" })) ++ extra) :=
  C5_stale_stamping genU "NOW" [] [] [("breakfast", [cStale])]
    (PublishOutcome.mk [("breakfast", [cStaleStamped])] []) "breakfast" [cStale]
    (by decide) rfl (by decide) (by decide)

/-- Counterexample for C4: the duplicate check of `add_meal_to_diet_plan`
never consults `deletedAt` — with a single soft-deleted same-(slot, product)
item in the existing plan, nothing is appended, although the claim requires
an append in exactly this situation. -/
theorem C4_counterexample :
    cDel.deletedAt.isSome = true ∧
    add_meal_to_diet_plan genU "NOW" 0 [] "Śniadanie" "X" (PyVal.num 100)
      [("breakfast", [cDel])] = .ok ([], none) :=
  ⟨rfl, rfl⟩

/-- Claim C4 (amended): for a mapped meal name and truthy product id, the
publisher skips appending exactly when an item with the same
`(slot, productId)` exists in the existing plan, regardless of its deletion
timestamp; otherwise (weight converting) it appends the new item. -/
theorem C4_skip_iff_product_present (gen : ℕ → String) (now : String) (k : ℕ)
    (dp : DietPlan) (mn pid : String) (wt : PyVal) (ex : DietPlan) (slot : String)
    (hm : MEAL_MAPPING mn = some slot) (hpid : pid ≠ "") :
    (slotHasProduct ex slot pid = true →
      add_meal_to_diet_plan gen now k dp mn pid wt ex = .ok (dp, none)) ∧
    (slotHasProduct ex slot pid = false → ∀ w, pyInt wt = some w →
      add_meal_to_diet_plan gen now k dp mn pid wt ex =
        .ok (appendToSlot dp slot (mkDietPlanItem (gen k) w pid now),
          some (slot, mkDietPlanItem (gen k) w pid now))) := by
  constructor
  · intro hhas
    unfold add_meal_to_diet_plan
    rw [hm]
    dsimp only
    rw [if_pos ⟨hpid, hhas⟩]
  · intro hhas w hw
    unfold add_meal_to_diet_plan
    rw [hm]
    dsimp only
    rw [if_neg (by rintro ⟨-, hb⟩; rw [hhas] at hb; exact Bool.noConfusion hb), hw]

/-- Witness for C4: a live same-(slot, product) item makes the publisher
skip the append. -/
theorem C4_skip_iff_product_present_witness :
    add_meal_to_diet_plan genU "NOW" 0 [] "Śniadanie" "X" (PyVal.num 100)
      [("breakfast", [cCur])] = .ok ([], none) :=
  (C4_skip_iff_product_present genU "NOW" 0 [] "Śniadanie" "X" (PyVal.num 100)
    [("breakfast", [cCur])] "breakfast" rfl (by decide)).1 (by decide)

/-- Counterexample for C8: an `"N/A"` weight, which the pipeline can carry,
makes the publisher raise an uncaught `int()` conversion error instead of
appending an item. -/
theorem C8_counterexample :
    publish_diet_plan genU "NOW" [("Śniadanie", "X")] [("Śniadanie", PyVal.na)] [] =
      .error () :=
  rfl

/-- Claim C8 (amended): every appended item carries the freshly generated id
(pairwise distinct when the uuid source is injective), `foodType="PRODUCT"`,
`measureId=1`, `source="API"`, the current timestamp, no deletion timestamp,
and `measureQuantity` equal to `int(weight)` — truncation toward zero — for
weights that convert; non-convertible weights abort the publish instead. -/
theorem C8_appended_item_fields (gen : ℕ → String) (now : String)
    (meal_ids : List (String × String)) (meal_weights : List (String × PyVal))
    (existing_plan0 : DietPlan) (r : PublishOutcome)
    (hpub : publish_diet_plan gen now meal_ids meal_weights existing_plan0 = .ok r) :
    (∀ si ∈ r.appended, ∃ mn pid j w, (mn, pid) ∈ meal_ids ∧
      pyInt (lookupD meal_weights mn (PyVal.num 100)) = some w ∧
      si.2.planDayDietItemId = gen j ∧ si.2.foodType = "PRODUCT" ∧
      si.2.measureId = 1 ∧ si.2.measureQuantity = w ∧ si.2.productId = pid ∧
      si.2.source = "API" ∧ si.2.updatedAt = now ∧ si.2.deletedAt = none) ∧
    (Function.Injective gen →
      (r.appended.map (fun si => si.2.planDayDietItemId)).Nodup) := by
  have hloop := publish_ok_elim _ _ _ _ _ _ hpub
  obtain ⟨hmem, -, hids, -⟩ := publishLoop_spec gen now _ meal_weights meal_ids _ 0 []
    r.posted r.appended hloop
  constructor
  · intro si hs
    rcases hmem si hs with hfalse | hap
    · simp at hfalse
    · obtain ⟨mn, pid, j, w, hmm, hmap, hw, hitem, -⟩ := hap
      refine ⟨mn, pid, j, w, hmm, hw, ?_, ?_, ?_, ?_, ?_, ?_, ?_, ?_⟩ <;>
        rw [hitem] <;> rfl
  · intro hinj
    obtain ⟨js, hjs, hnd, -⟩ := hids
    rw [hjs]
    simp only [List.map_nil, List.nil_append]
    exact List.Nodup.map hinj hnd

/-- Witness for C8: a single meal with the fractional weight 5/2 grams gets
an item with `measureQuantity = 2` (truncation toward zero). -/
theorem C8_appended_item_fields_witness :
    ∃ mn pid j w, (mn, pid) ∈ [("Śniadanie", "X")] ∧
      pyInt (lookupD [("Śniadanie", PyVal.num qHalf5)] mn (PyVal.num 100)) = some w ∧
      (("breakfast", mkDietPlanItem (genU 0) 2 "X" "NOW") :
          String × DietPlanItem).2.planDayDietItemId = genU j ∧
      (("breakfast", mkDietPlanItem (genU 0) 2 "X" "NOW") :
          String × DietPlanItem).2.foodType = "PRODUCT" ∧
      (("breakfast", mkDietPlanItem (genU 0) 2 "X" "NOW") :
          String × DietPlanItem).2.measureId = 1 ∧
      (("breakfast", mkDietPlanItem (genU 0) 2 "X" "NOW") :
          String × DietPlanItem).2.measureQuantity = w ∧
      (("breakfast", mkDietPlanItem (genU 0) 2 "X" "NOW") :
          String × DietPlanItem).2.productId = pid ∧
      (("breakfast", mkDietPlanItem (genU 0) 2 "X" "NOW") :
          String × DietPlanItem).2.source = "API" ∧
      (("breakfast", mkDietPlanItem (genU 0) 2 "X" "NOW") :
          String × DietPlanItem).2.updatedAt = "NOW" ∧
      (("breakfast", mkDietPlanItem (genU 0) 2 "X" "NOW") :
          String × DietPlanItem).2.deletedAt = none :=
  (C8_appended_item_fields genU "NOW" [("Śniadanie", "X")]
    [("Śniadanie", PyVal.num qHalf5)] []
    (PublishOutcome.mk [("breakfast", [mkDietPlanItem (genU 0) 2 "X" "NOW"])]
      [("breakfast", mkDietPlanItem (genU 0) 2 "X" "NOW")])
    rfl).1 ("breakfast", mkDietPlanItem (genU 0) 2 "X" "NOW") (by decide)

/-- The slots of the appended pairs are the appended slots. -/
theorem appendedPairs_map_fst (l : List (String × DietPlanItem)) :
    (appendedPairs l).map Prod.fst = l.map Prod.fst := by
  unfold appendedPairs
  rw [List.map_map]
  rfl

/-- A successful publish appends pairwise distinct `(slot, productId)` pairs
when the meal names are distinct (the default meal mapping is injective). -/
theorem publish_appendedPairs_nodup (gen : ℕ → String) (now : String)
    (meal_ids : List (String × String)) (meal_weights : List (String × PyVal))
    (existing_plan0 : DietPlan) (r : PublishOutcome)
    (hnames : (meal_ids.map Prod.fst).Nodup)
    (hpub : publish_diet_plan gen now meal_ids meal_weights existing_plan0 = .ok r) :
    (appendedPairs r.appended).Nodup := by
  have hloop := publish_ok_elim _ _ _ _ _ _ hpub
  obtain ⟨-, hsub, -, -⟩ := publishLoop_spec gen now _ meal_weights meal_ids _ 0 []
    r.posted r.appended hloop
  rw [List.map_nil, List.nil_append] at hsub
  have hfm : ((meal_ids.map Prod.fst).filterMap MEAL_MAPPING).Nodup :=
    List.Nodup.filterMap
      (fun a a' b hb hb' =>
        MEAL_MAPPING_inj a a' b (Option.mem_def.1 hb) (Option.mem_def.1 hb')) hnames
  have hnodup_fst : (r.appended.map Prod.fst).Nodup := hfm.sublist hsub
  rw [← appendedPairs_map_fst] at hnodup_fst
  exact List.Nodup.of_map _ hnodup_fst

/-- Every pair appended by a successful publish fails the duplicate check
against the fetched existing plan (truthy product ids assumed). -/
theorem publish_appended_not_dup (gen : ℕ → String) (now : String)
    (meal_ids : List (String × String)) (meal_weights : List (String × PyVal))
    (existing_plan0 : DietPlan) (r : PublishOutcome)
    (hvals : ∀ pr ∈ meal_ids, pr.2 ≠ "")
    (hpub : publish_diet_plan gen now meal_ids meal_weights existing_plan0 = .ok r) :
    ∀ pr ∈ appendedPairs r.appended, slotHasProduct existing_plan0 pr.1 pr.2 = false := by
  have hloop := publish_ok_elim _ _ _ _ _ _ hpub
  obtain ⟨hmem, -, -, -⟩ := publishLoop_spec gen now _ meal_weights meal_ids _ 0 []
    r.posted r.appended hloop
  intro pr hpr
  obtain ⟨si, hsi, heq⟩ := List.mem_map.1 hpr
  rcases hmem si hsi with hfalse | hap
  · simp at hfalse
  · obtain ⟨mn, pid, j, w, hmm, hmap, hw, hitem, hnot⟩ := hap
    have hpid : pid ≠ "" := hvals (mn, pid) hmm
    have hfalse2 : slotHasProduct
        (existing_plan0.map
          (fun p => (p.1, stampItems now (meal_ids.map Prod.snd) p.2)))
        si.1 pid = false := by
      cases hb : slotHasProduct
          (existing_plan0.map
            (fun p => (p.1, stampItems now (meal_ids.map Prod.snd) p.2)))
          si.1 pid with
      | false => rfl
      | true => exact absurd ⟨hpid, hb⟩ hnot
    rw [slotHasProduct_stamped] at hfalse2
    rw [← heq]
    dsimp only
    rw [show si.2.productId = pid from by rw [hitem]; rfl]
    exact hfalse2

/-- A list without duplicates counts every element at most once (stated for
the boolean-equality count so it lines up with `count_append`). -/
theorem count_le_one_of_nodup {α : Type} [BEq α] [LawfulBEq α] {l : List α}
    (h : l.Nodup) (a : α) : l.count a ≤ 1 := by
  induction l with
  | nil => simp
  | cons b tl ih =>
    rw [List.count_cons]
    have hnotin := (List.nodup_cons.1 h).1
    have htl := (List.nodup_cons.1 h).2
    by_cases hab : b = a
    · subst hab
      have hz : tl.count b = 0 := List.count_eq_zero.2 hnotin
      simp [hz]
    · have hb : (b == a) = false := beq_eq_false_iff_ne.2 hab
      simp [hb]
      exact ih htl

/-- Claim C3: publishing the same resolved map twice in a row appends no
duplicate `(slot, productId)` pair — assuming distinct meal names, truthy
product ids, and that the plan fetched before the second run contains the
pairs appended by the first run. -/
theorem C3_publish_idempotent (gen1 gen2 : ℕ → String) (now1 now2 : String)
    (meal_ids : List (String × String)) (mw1 mw2 : List (String × PyVal))
    (ex0 ex1 : DietPlan) (r1 r2 : PublishOutcome)
    (hnames : (meal_ids.map Prod.fst).Nodup)
    (hvals : ∀ pr ∈ meal_ids, pr.2 ≠ "")
    (hkeys1 : (ex1.map Prod.fst).Nodup)
    (h1 : publish_diet_plan gen1 now1 meal_ids mw1 ex0 = .ok r1)
    (h2 : publish_diet_plan gen2 now2 meal_ids mw2 ex1 = .ok r2)
    (hpersist : ∀ pr ∈ appendedPairs r1.appended, pr ∈ plannedPairs ex1) :
    ∀ pr : String × String,
      (appendedPairs r1.appended ++ appendedPairs r2.appended).count pr ≤ 1 := by
  have hnd1 := publish_appendedPairs_nodup _ _ _ _ _ _ hnames h1
  have hnd2 := publish_appendedPairs_nodup _ _ _ _ _ _ hnames h2
  have hnodup2 := publish_appended_not_dup _ _ _ _ _ _ hvals h2
  have hdisj : ∀ pr ∈ appendedPairs r2.appended, pr ∉ appendedPairs r1.appended := by
    intro pr h2m h1m
    have hplan := hpersist pr h1m
    have hhas : slotHasProduct ex1 pr.1 pr.2 = true :=
      slotHasProduct_of_mem_plannedPairs ex1 hkeys1 pr.1 pr.2 (by simpa using hplan)
    have hfalse := hnodup2 pr h2m
    rw [hfalse] at hhas
    exact Bool.noConfusion hhas
  intro pr
  rw [List.count_append]
  by_cases hm1 : pr ∈ appendedPairs r1.appended
  · have hm2 : pr ∉ appendedPairs r2.appended := fun hh => hdisj pr hh hm1
    have hc2 : (appendedPairs r2.appended).count pr = 0 := List.count_eq_zero.2 hm2
    have hc1 := count_le_one_of_nodup hnd1 pr
    omega
  · have hc1 : (appendedPairs r1.appended).count pr = 0 := List.count_eq_zero.2 hm1
    have hc2 := count_le_one_of_nodup hnd2 pr
    omega

/-- Witness for C3: a first run over an empty plan appends `(breakfast, X)`;
the second run, fetching a plan containing that product, appends nothing, so
the pair is appended at most once across both runs. -/
theorem C3_publish_idempotent_witness :
    ((appendedPairs (PublishOutcome.mk
        [("breakfast", [mkDietPlanItem (genU 0) 250 "X" "NOW"])]
        [("breakfast", mkDietPlanItem (genU 0) 250 "X" "NOW")]).appended) ++
      (appendedPairs (PublishOutcome.mk [("breakfast", [cCur])] []).appended)).count
      ("breakfast", "X") ≤ 1 :=
  C3_publish_idempotent genU genU "NOW" "NOW2" [("Śniadanie", "X")]
    [("Śniadanie", PyVal.num 250)] [("Śniadanie", PyVal.num 250)]
    [] [("breakfast", [cCur])]
    (PublishOutcome.mk [("breakfast", [mkDietPlanItem (genU 0) 250 "X" "NOW"])]
      [("breakfast", mkDietPlanItem (genU 0) 250 "X" "NOW")])
    (PublishOutcome.mk [("breakfast", [cCur])] [])
    (by decide) (by decide) (by decide) rfl rfl (by decide) ("breakfast", "X")

/-- The boolean Gregorian leap test as a proposition. -/
theorem isLeap_iff (y : ℕ) : isLeap y = true ↔ (4 ∣ y ∧ ¬(100 ∣ y)) ∨ 400 ∣ y := by
  unfold isLeap
  simp [Nat.dvd_iff_mod_eq_zero]

/-- Counting leap days gains exactly one at each leap year. -/
theorem leapsBefore_succ (n : ℕ) :
    leapsBefore (n + 1) = leapsBefore n + (if isLeap (n + 1) then 1 else 0) := by
  have hba : n / 100 ≤ n / 4 := by
    rw [show (100 : ℕ) = 4 * 25 from rfl, ← Nat.div_div_eq_div_mul]
    exact Nat.div_le_self _ _
  have hcb : n / 400 ≤ n / 100 := by
    rw [show (400 : ℕ) = 100 * 4 from rfl, ← Nat.div_div_eq_div_mul]
    exact Nat.div_le_self _ _
  have himp1 : 400 ∣ (n + 1) → 100 ∣ (n + 1) := fun h => dvd_trans (by norm_num) h
  have himp2 : 100 ∣ (n + 1) → 4 ∣ (n + 1) := fun h => dvd_trans (by norm_num) h
  have h4 := Nat.succ_div n 4
  have h100 := Nat.succ_div n 100
  have h400 := Nat.succ_div n 400
  unfold leapsBefore
  rw [h4, h100, h400]
  by_cases d400 : 400 ∣ (n + 1)
  · have d100 := himp1 d400
    have d4 := himp2 d100
    have hL : isLeap (n + 1) = true := (isLeap_iff _).2 (Or.inr d400)
    rw [if_pos d4, if_pos d100, if_pos d400, hL]
    simp only [if_true]
    omega
  · by_cases d100 : 100 ∣ (n + 1)
    · have d4 := himp2 d100
      have hL : isLeap (n + 1) = false := Bool.eq_false_iff.2 (fun ht => by
        rcases (isLeap_iff _).1 ht with ⟨-, hc⟩ | hc
        · exact hc d100
        · exact d400 hc)
      rw [if_pos d4, if_pos d100, if_neg d400, hL]
      simp only [Bool.false_eq_true, if_false]
      omega
    · by_cases d4 : 4 ∣ (n + 1)
      · have hL : isLeap (n + 1) = true := (isLeap_iff _).2 (Or.inl ⟨d4, d100⟩)
        rw [if_pos d4, if_neg d100, if_neg d400, hL]
        simp only [if_true]
        omega
      · have hL : isLeap (n + 1) = false := Bool.eq_false_iff.2 (fun ht => by
          rcases (isLeap_iff _).1 ht with ⟨hc, -⟩ | hc
          · exact d4 hc
          · exact d400 hc)
        rw [if_neg d4, if_neg d100, if_neg d400, hL]
        simp only [Bool.false_eq_true, if_false]
        omega

/-- The cumulative month table is consistent with the month lengths. -/
theorem monthOffset_succ (leap : Bool) (m : ℕ) (h1 : 1 ≤ m) (h2 : m ≤ 11) :
    monthOffset leap (m + 1) = monthOffset leap m + daysInMonth leap m := by
  interval_cases m <;> cases leap <;> decide

/-- Year starts advance by the year's length. -/
theorem yearStart_succ (y : ℕ) (h : 1 ≤ y) :
    yearStart (y + 1) = yearStart y + 365 + (if isLeap y then 1 else 0) := by
  obtain ⟨n, rfl⟩ : ∃ n, y = n + 1 := ⟨y - 1, by omega⟩
  unfold yearStart
  simp only [Nat.add_sub_cancel]
  rw [leapsBefore_succ n]
  omega

/-- Every month of the year has at least one day. -/
theorem daysInMonth_pos (leap : Bool) (m : ℕ) (h1 : 1 ≤ m) (h2 : m ≤ 12) :
    1 ≤ daysInMonth leap m := by
  interval_cases m <;> cases leap <;> decide

/-- A month's offset plus its length stays within the year's length. -/
theorem monthOffset_add_daysInMonth_le (leap : Bool) (m : ℕ) (h1 : 1 ≤ m) (h2 : m ≤ 12) :
    monthOffset leap m + daysInMonth leap m ≤ 365 + (if leap then 1 else 0) := by
  interval_cases m <;> cases leap <;> decide

/-- The successor day of a valid date is valid. -/
theorem nextDay_valid (d : Date) (h : IsValidDate d) : IsValidDate (nextDay d) := by
  obtain ⟨hy, hm1, hm2, hd1, hd2⟩ := h
  unfold nextDay
  split_ifs with h1 h2
  · unfold IsValidDate
    dsimp
    exact ⟨hy, hm1, hm2, by omega, by omega⟩
  · unfold IsValidDate
    dsimp
    refine ⟨hy, by omega, by omega, by omega, ?_⟩
    exact daysInMonth_pos _ _ (by omega) (by omega)
  · unfold IsValidDate
    dsimp
    refine ⟨by omega, by omega, by omega, by omega, ?_⟩
    exact daysInMonth_pos _ _ (by omega) (by omega)

/-- The successor day has the successor ordinal. -/
theorem toOrdinal_nextDay (d : Date) (h : IsValidDate d) :
    toOrdinal (nextDay d) = toOrdinal d + 1 := by
  obtain ⟨hy, hm1, hm2, hd1, hd2⟩ := h
  unfold nextDay
  split_ifs with h1 h2
  · unfold toOrdinal
    dsimp
    omega
  · unfold toOrdinal
    dsimp
    rw [monthOffset_succ _ _ hm1 (by omega)]
    omega
  · have hm12 : d.month = 12 := by omega
    have hdim : daysInMonth (isLeap d.year) 12 = 31 := by cases isLeap d.year <;> rfl
    have hday : d.day = 31 := by
      rw [hm12] at hd2 h1
      omega
    have ho1 : ∀ b, monthOffset b 1 = 0 := fun b => by cases b <;> rfl
    have ho12 : monthOffset (isLeap d.year) 12 = 334 + (if isLeap d.year then 1 else 0) := by
      cases hL : isLeap d.year <;> simp [monthOffset]
    unfold toOrdinal
    dsimp
    rw [hm12, hday, ho1, ho12, yearStart_succ d.year hy]
    omega

/-- Ordinals of a valid date lie strictly inside its year's range. -/
theorem toOrdinal_lower (d : Date) (h : IsValidDate d) :
    yearStart d.year + 1 ≤ toOrdinal d := by
  obtain ⟨hy, hm1, hm2, hd1, hd2⟩ := h
  unfold toOrdinal
  omega

theorem toOrdinal_upper (d : Date) (h : IsValidDate d) :
    toOrdinal d ≤ yearStart (d.year + 1) := by
  obtain ⟨hy, hm1, hm2, hd1, hd2⟩ := h
  have hb := monthOffset_add_daysInMonth_le (isLeap d.year) d.month hm1 hm2
  rw [yearStart_succ d.year hy]
  unfold toOrdinal
  omega

/-- Year starts are monotone. -/
theorem yearStart_mono (a : ℕ) (ha : 1 ≤ a) :
    ∀ b, a ≤ b → yearStart a ≤ yearStart b := by
  intro b
  induction b with
  | zero => intro h0; exact absurd h0 (by omega)
  | succ m ihm =>
    intro hab
    by_cases hcase : a = m + 1
    · rw [hcase]
    · have h1 : a ≤ m := by omega
      have h1m : 1 ≤ m := by omega
      have hstep := yearStart_succ m h1m
      have := ihm h1
      omega

/-- Month offsets are monotone within a year. -/
theorem monthOffset_mono (leap : Bool) (a : ℕ) (h1 : 1 ≤ a) :
    ∀ b, a ≤ b → b ≤ 12 → monthOffset leap a ≤ monthOffset leap b := by
  intro b
  induction b with
  | zero => intro h0 _; exact absurd h0 (by omega)
  | succ m ihm =>
    intro hab hb
    by_cases hcase : a = m + 1
    · rw [hcase]
    · have ha_le_m : a ≤ m := by omega
      have hm1 : 1 ≤ m := by omega
      have hstep := monthOffset_succ leap m hm1 (by omega)
      have := ihm ha_le_m (by omega)
      omega

/-- An earlier year means a smaller ordinal. -/
theorem toOrdinal_lt_of_year_lt (d1 d2 : Date) (h1 : IsValidDate d1)
    (h2 : IsValidDate d2) (hy : d1.year < d2.year) : toOrdinal d1 < toOrdinal d2 := by
  have hu := toOrdinal_upper d1 h1
  have hl := toOrdinal_lower d2 h2
  have hy1 : 1 ≤ d1.year := h1.1
  have hmono := yearStart_mono (d1.year + 1) (by omega) d2.year (by omega)
  omega

/-- Same year, earlier month means a smaller ordinal. -/
theorem toOrdinal_lt_of_month_lt (d1 d2 : Date) (h1 : IsValidDate d1)
    (h2 : IsValidDate d2) (hy : d1.year = d2.year) (hm : d1.month < d2.month) :
    toOrdinal d1 < toOrdinal d2 := by
  obtain ⟨hy1, hm11, hm12, hd11, hd12⟩ := h1
  obtain ⟨hy2, hm21, hm22, hd21, hd22⟩ := h2
  have hleap : isLeap d1.year = isLeap d2.year := by rw [hy]
  have hstep := monthOffset_succ (isLeap d1.year) d1.month hm11 (by omega)
  have hmono := monthOffset_mono (isLeap d1.year) (d1.month + 1) (by omega) d2.month
    (by omega) hm22
  unfold toOrdinal
  rw [hy]
  rw [hleap] at hstep hmono hd12
  omega

/-- Theorem: `toOrdinal` is injective on valid dates. -/
theorem toOrdinal_inj (d1 d2 : Date) (h1 : IsValidDate d1) (h2 : IsValidDate d2)
    (heq : toOrdinal d1 = toOrdinal d2) : d1 = d2 := by
  have hyy : d1.year = d2.year := by
    rcases lt_trichotomy d1.year d2.year with hlt | heqy | hgt
    · have := toOrdinal_lt_of_year_lt d1 d2 h1 h2 hlt
      omega
    · exact heqy
    · have := toOrdinal_lt_of_year_lt d2 d1 h2 h1 hgt
      omega
  have hmm : d1.month = d2.month := by
    rcases lt_trichotomy d1.month d2.month with hlt | heqm | hgt
    · have := toOrdinal_lt_of_month_lt d1 d2 h1 h2 hyy hlt
      omega
    · exact heqm
    · have := toOrdinal_lt_of_month_lt d2 d1 h2 h1 hyy.symm hgt
      omega
  have hdd : d1.day = d2.day := by
    unfold toOrdinal at heq
    rw [hyy, hmm] at heq
    omega
  cases d1
  cases d2
  dsimp at hyy hmm hdd
  rw [hyy, hmm, hdd]

/-- Iterating the successor day bridges any ordinal gap between valid
dates. -/
theorem iterate_nextDay_reaches :
    ∀ (k : ℕ) (s e : Date), IsValidDate s → IsValidDate e →
      toOrdinal s + k = toOrdinal e → nextDay^[k] s = e := by
  intro k
  induction k with
  | zero =>
    intro s e hs he hk
    simpa using toOrdinal_inj s e hs he (by omega)
  | succ j ihj =>
    intro s e hs he hk
    rw [Function.iterate_succ_apply]
    refine ihj (nextDay s) e (nextDay_valid s hs) he ?_
    rw [toOrdinal_nextDay s hs]
    omega

/-- All iterated successor days of a valid date are valid. -/
theorem iterate_nextDay_valid (s : Date) (hs : IsValidDate s) :
    ∀ i, IsValidDate (nextDay^[i] s) := by
  intro i
  induction i with
  | zero => simpa using hs
  | succ j ihj =>
    rw [Function.iterate_succ_apply']
    exact nextDay_valid _ ihj

/-- Claim C7: for a well-formed range with start ≤ end, `select_dates`
returns exactly the dates from start to end inclusive — the list has
`(end - start).days + 1` entries, entry `i` is the `i`-th successor day of
the start (so the list is ascending in one-day increments), the first entry
is the start and the last entry is the end. -/
theorem C7_range_expansion (s e : Date) (hs : IsValidDate s) (he : IsValidDate e)
    (hle : toOrdinal s ≤ toOrdinal e) (L : List String)
    (hsel : select_dates none (some (s, e)) = .ok L) :
    L.length = toOrdinal e - toOrdinal s + 1 ∧
    (∀ i, i < L.length → L[i]? = some (formatDate (nextDay^[i] s))) ∧
    L[0]? = some (formatDate s) ∧
    L[L.length - 1]? = some (formatDate e) ∧
    (∀ i, i + 1 < L.length → ∃ d, IsValidDate d ∧ L[i]? = some (formatDate d) ∧
      L[i + 1]? = some (formatDate (nextDay d))) := by
  have hcomp : select_dates none (some (s, e)) =
      .ok ((List.range (((toOrdinal e : ℤ) - (toOrdinal s : ℤ) + 1).toNat)).map
        (fun i => formatDate (nextDay^[i] s))) := rfl
  rw [hcomp] at hsel
  have hLr := Except.ok.inj hsel
  have htn : (((toOrdinal e : ℤ) - (toOrdinal s : ℤ) + 1)).toNat =
      (toOrdinal e - toOrdinal s) + 1 := by omega
  have hlen : L.length = toOrdinal e - toOrdinal s + 1 := by
    rw [← hLr, List.length_map, List.length_range, htn]
  have hget : ∀ i, i < L.length → L[i]? = some (formatDate (nextDay^[i] s)) := by
    intro i hi
    rw [← hLr]
    rw [List.getElem?_map, List.getElem?_range]
    · rfl
    · rw [htn]
      omega
  refine ⟨hlen, hget, ?_, ?_, ?_⟩
  · have h0 := hget 0 (by omega)
    simpa using h0
  · have hlast := hget (L.length - 1) (by omega)
    rw [hlast]
    have hreach : nextDay^[toOrdinal e - toOrdinal s] s = e :=
      iterate_nextDay_reaches (toOrdinal e - toOrdinal s) s e hs he (by omega)
    rw [hlen]
    simp only [Nat.add_sub_cancel]
    rw [hreach]
  · intro i hi
    refine ⟨nextDay^[i] s, iterate_nextDay_valid s hs i, hget i (by omega), ?_⟩
    rw [hget (i + 1) hi, Function.iterate_succ_apply']

/-- Witness for C7: the range 2024-01-01 to 2024-01-03 expands to exactly
three ascending dates ending at 2024-01-03. -/
theorem C7_range_expansion_witness :
    (["2024-01-01", "2024-01-02", "2024-01-03"] : List String).length =
      toOrdinal ⟨2024, 1, 3⟩ - toOrdinal ⟨2024, 1, 1⟩ + 1 ∧
    (["2024-01-01", "2024-01-02", "2024-01-03"] : List String)[
      (["2024-01-01", "2024-01-02", "2024-01-03"] : List String).length - 1]? =
      some (formatDate ⟨2024, 1, 3⟩) := by
  have h := C7_range_expansion ⟨2024, 1, 1⟩ ⟨2024, 1, 3⟩
    (by unfold IsValidDate; decide) (by unfold IsValidDate; decide)
    (by decide) ["2024-01-01", "2024-01-02", "2024-01-03"] rfl
  exact ⟨h.1, h.2.2.2.1⟩

/-- Counterexample for C6: supplying an empty explicit date list alongside a
date range raises no error — Python truthiness makes the guard pass and the
empty list is returned. -/
theorem C6_counterexample :
    select_dates (some []) (some (⟨2024, 1, 1⟩, ⟨2024, 1, 2⟩)) = .ok [] := rfl

/-- Claim C6 (amended): date selection raises the configuration error
exactly when a non-empty date list and a range are both supplied (an empty
list plus a range is returned as-is without error), and returns an empty
sequence without error when neither is supplied. -/
theorem C6_config_error (dates : List String) (rng : Option (Date × Date)) :
    (dates ≠ [] → rng.isSome = true → select_dates (some dates) rng = .error ()) ∧
    (rng.isSome = true → select_dates (some []) rng = .ok []) ∧
    select_dates none none = .ok [] := by
  refine ⟨?_, ?_, rfl⟩
  · intro hne hsome
    have h1 : (!dates.isEmpty) = true := by
      cases dates with
      | nil => exact absurd rfl hne
      | cons a l => rfl
    unfold select_dates
    dsimp only
    rw [h1, hsome]
    rfl
  · intro hsome
    unfold select_dates
    rfl

/-- Witness for C6: a one-element list with a range errors; no configuration
yields the empty selection. -/
theorem C6_config_error_witness :
    select_dates (some ["2024-01-01"]) (some (⟨2024, 1, 1⟩, ⟨2024, 1, 2⟩)) =
      .error () ∧
    select_dates none none = .ok [] :=
  ⟨(C6_config_error ["2024-01-01"] (some (⟨2024, 1, 1⟩, ⟨2024, 1, 2⟩))).1
    (by decide) rfl,
    (C6_config_error [] none).2.2⟩
